import Mathlib

/-
Verification of the participant (Server) of a Three-Phase-Commit key-value
store, shallowly embedded from src/server.go and the shared data model.

Go maps are modelled as Option-valued functions (a missing key is none, and
reading a missing entry of the states map yields the zero value, which is
stateOperations).  A sync.RWMutex is modelled by explicit reader/writer
fields; acquiring a lock that is incompatibly held blocks the handler
(constructor PrepOut.blocked), and unlocking a lock that is not held in the
corresponding mode is a fatal runtime error in Go, modelled by returning
none (PrepOut.panicked in Prepare).  Opaque Go interface values are
modelled by GoVal, with none standing for Go nil.
-/

namespace ThreePC

/-- Opaque value stored in the KV store (Go interface value); none is Go nil. -/
abbrev GoVal := Option Int

/-- StoreItem from server.go: a value plus a readers-writer lock, the lock
modelled by the number of read holders and whether the write side is held. -/
structure StoreItem where
  value : GoVal
  readers : Nat
  writer : Bool
deriving DecidableEq

/-- Operation from the shared data model: IsGet, Key, Value (nil for Gets). -/
structure Operation where
  isGet : Bool
  key : String
  value : GoVal
deriving DecidableEq

/-- TransactionState from the shared data model; stateOperations is the Go
zero value, so a missing entry of the states map reads as operations. -/
inductive TransactionState where
  | operations
  | votedNo
  | votedYes
  | preCommitted
  | aborted
  | committed
deriving DecidableEq

/-- PrepareReply from the shared data model. -/
structure PrepareReply where
  relevant : Bool
  vote : Bool
deriving DecidableEq

/-- ServerTransaction from the shared data model: one entry of a QueryReply. -/
structure ServerTransaction where
  state : TransactionState
  ops : List Operation
deriving DecidableEq

/-- The store map of a Server: key to StoreItem, none for unowned keys. -/
abbrev Store := String → Option StoreItem

/-- The ReadValues map of a CommitReply (a present entry may hold Go nil). -/
abbrev ReadValues := String → Option GoVal

/-- Server from server.go: the store and the per-transaction operation log
and state maps (the participant-wide mutex is implicit: handlers are
sequential functions). -/
structure Server where
  store : Store
  operations : Int → Option (List Operation)
  states : Int → Option TransactionState

/-- Go map insertion: point update of an Option-valued function. -/
def upd {α β : Type} [DecidableEq α] (f : α → Option β) (k : α) (v : β) : α → Option β :=
  fun x => if x = k then some v else f x

/-- Reading the states map as Go does: a missing entry is the zero value,
stateOperations. -/
def stateOf (sv : Server) (tid : Int) : TransactionState :=
  (sv.states tid).getD .operations

/-- MakeServer from server.go: every configured key maps to a StoreItem with
a nil value and an unheld lock; the operation and state maps start empty. -/
def mkServer (keys : List String) : Server :=
  { store := fun k => if k ∈ keys then some ⟨none, 0, false⟩ else none
    operations := fun _ => none
    states := fun _ => none }

/-- Get from server.go: append an IsGet operation (value nil) to ops of tid. -/
def getH (sv : Server) (tid : Int) (key : String) : Server :=
  { sv with
    operations := upd sv.operations tid ((sv.operations tid).getD [] ++ [⟨true, key, none⟩]) }

/-- Set from server.go: append a Set operation carrying the value to ops of tid. -/
def setH (sv : Server) (tid : Int) (key : String) (v : GoVal) : Server :=
  { sv with
    operations := upd sv.operations tid ((sv.operations tid).getD [] ++ [⟨false, key, v⟩]) }

/-- Outcome of the Prepare handler: a reply with the resulting server, or the
handler blocked forever on a per-key lock, or the program died on a bad unlock. -/
inductive PrepOut where
  | done (sv : Server) (reply : PrepareReply)
  | blocked (key : String)
  | panicked

/-- The unlock loop of the missing-key branch of Prepare: server.go calls
lock.Unlock() (the write-side unlock) on every acquired item, whatever mode it
was acquired in; Unlock of a lock whose write side is not held is fatal (none).
Every acquired key is present in the store, so the none branch is dead code
kept only to mirror the pointer-based Go loop. -/
def unlockAllW (st : Store) : List String → Option Store
  | [] => some st
  | k :: rest =>
    match st k with
    | none => unlockAllW st rest
    | some item =>
      if item.writer then unlockAllW (upd st k { item with writer := false }) rest
      else none

/-- The lock-acquisition loop of Prepare from server.go, one step per logged
operation: RLock for a Get (blocks while the write side is held), Lock for a
Set (blocks while any holder exists).  A key missing from the store votes no,
records VotedNo and write-unlocks everything acquired so far; acquiring every
lock records VotedYes and votes yes. -/
def prepLoop (tid : Int) (sv : Server) : Store → List String → List Operation → PrepOut
  | st, _, [] =>
    .done { sv with store := st, states := upd sv.states tid .votedYes } ⟨true, true⟩
  | st, acquired, op :: rest =>
    match st op.key with
    | none =>
      match unlockAllW st acquired with
      | none => .panicked
      | some st2 =>
        .done { sv with store := st2, states := upd sv.states tid .votedNo } ⟨true, false⟩
    | some item =>
      if op.isGet then
        if item.writer then .blocked op.key
        else prepLoop tid sv (upd st op.key { item with readers := item.readers + 1 })
          (acquired ++ [op.key]) rest
      else
        if item.writer || item.readers > 0 then .blocked op.key
        else prepLoop tid sv (upd st op.key { item with writer := true })
          (acquired ++ [op.key]) rest

/-- Prepare from server.go: a missing or empty operation log replies
not-relevant; a state other than Operations re-votes (yes for VotedYes,
PreCommitted, Committed, no otherwise) without touching anything; from
Operations the lock loop runs. -/
def prepare (sv : Server) (tid : Int) : PrepOut :=
  match sv.operations tid with
  | none => .done sv ⟨false, false⟩
  | some ops =>
    if ops.isEmpty then .done sv ⟨false, false⟩
    else
      if stateOf sv tid ≠ .operations then
        if stateOf sv tid = .votedYes ∨ stateOf sv tid = .preCommitted ∨
            stateOf sv tid = .committed then
          .done sv ⟨true, true⟩
        else .done sv ⟨true, false⟩
      else prepLoop tid sv sv.store [] ops

/-- The per-operation release loop of Abort from server.go: keys missing from
the store are skipped; a Get releases the read side (fatal when no reader
holds it), a Set releases the write side (fatal when it is not held). -/
def releaseOps (st : Store) : List Operation → Option Store
  | [] => some st
  | op :: rest =>
    match st op.key with
    | none => releaseOps st rest
    | some item =>
      if op.isGet then
        if item.readers > 0 then
          releaseOps (upd st op.key { item with readers := item.readers - 1 }) rest
        else none
      else
        if item.writer then
          releaseOps (upd st op.key { item with writer := false }) rest
        else none

/-- Abort from server.go: return unchanged when the states map has no entry
for tid or the entry is Aborted; otherwise release the lock of every logged
operation and set the state to Aborted. -/
def abortH (sv : Server) (tid : Int) : Option Server :=
  match sv.states tid with
  | none => some sv
  | some st =>
    if st = .aborted then some sv
    else
      match releaseOps sv.store ((sv.operations tid).getD []) with
      | none => none
      | some st2 => some { sv with store := st2, states := upd sv.states tid .aborted }

/-- Query from server.go: the reply maps exactly the tids present in the
states map to their state and operation list. -/
def queryH (sv : Server) : Int → Option ServerTransaction :=
  fun tid => (sv.states tid).map fun st => ⟨st, (sv.operations tid).getD []⟩

/-- PreCommit from server.go: move to PreCommitted exactly when the tid has an
entry in the operations map and its state is VotedYes; otherwise do nothing. -/
def preCommitH (sv : Server) (tid : Int) : Server :=
  if (sv.operations tid).isSome = true ∧ stateOf sv tid = .votedYes then
    { sv with states := upd sv.states tid .preCommitted }
  else sv

/-- The empty ReadValues map a CommitReply starts from. -/
def emptyRV : ReadValues := fun _ => none

/-- The apply-and-unlock loop of Commit from server.go: keys missing from the
store are skipped; a Get copies the current value into ReadValues and releases
the read side (fatal when no reader holds it); a Set writes its value and
releases the write side (fatal when it is not held). -/
def commitLoop : Store → ReadValues → List Operation → Option (Store × ReadValues)
  | st, rv, [] => some (st, rv)
  | st, rv, op :: rest =>
    match st op.key with
    | none => commitLoop st rv rest
    | some item =>
      if op.isGet then
        if item.readers > 0 then
          commitLoop (upd st op.key { item with readers := item.readers - 1 })
            (upd rv op.key item.value) rest
        else none
      else
        if item.writer then
          commitLoop (upd st op.key { item with value := op.value, writer := false }) rv rest
        else none

/-- Commit from server.go: with no operations entry or a state other than
PreCommitted, reply with an empty ReadValues map and change nothing; from
PreCommitted run the apply-and-unlock loop and set the state to Committed. -/
def commitH (sv : Server) (tid : Int) : Option (Server × ReadValues) :=
  match sv.operations tid with
  | none => some (sv, emptyRV)
  | some ops =>
    if stateOf sv tid = .preCommitted then
      match commitLoop sv.store emptyRV ops with
      | none => none
      | some (st2, rv) =>
        some ({ sv with store := st2, states := upd sv.states tid .committed }, rv)
    else some (sv, emptyRV)

/-- Execution of one Commit, written after the words of the spec: execute the
logged operations in order — a Set writes its value into the StoreItem, a Get
reads the value current at that point into the reply — and release each
operation's lock as it is executed, the read side for a Get and the write
side for a Set.  This is the spec-side twin that Commit is compared with. -/
def commitSpecExec : Store → ReadValues → List Operation → (Store × ReadValues)
  | st, rv, [] => (st, rv)
  | st, rv, op :: rest =>
    match st op.key with
    | none => commitSpecExec st rv rest
    | some item =>
      if op.isGet then
        commitSpecExec (upd st op.key { item with readers := item.readers - 1 })
          (upd rv op.key item.value) rest
      else
        commitSpecExec (upd st op.key { item with value := op.value, writer := false }) rv rest

/-- The locks Prepare took for an operation list are held in the store: each
key is owned, a Get finds a held read side and a Set a held write side, step
by step along the same store evolution the Commit loop performs. -/
def locksHeld : Store → List Operation → Bool
  | _, [] => true
  | st, op :: rest =>
    match st op.key with
    | none => false
    | some item =>
      if op.isGet then
        if item.readers > 0 then
          locksHeld (upd st op.key { item with readers := item.readers - 1 }) rest
        else false
      else
        if item.writer then
          locksHeld (upd st op.key { item with value := op.value, writer := false }) rest
        else false

/-- A participant owning key x, after the client logged Set(x,5) for
transaction 1 (state Operations, no states-map entry yet). -/
def svA : Server := setH (mkServer ["x"]) 1 "x" (some 5)

/-- The same participant after Prepare(1) succeeded: write lock on x held,
state VotedYes. -/
def svB : Server :=
  match prepare svA 1 with
  | .done s _ => s
  | _ => svA

/-- The same participant after PreCommit(1): state PreCommitted. -/
def svPre : Server := preCommitH svB 1

/-- The same participant after Commit(1): x holds 5, lock released, state
Committed. -/
def svC1 : Server :=
  match commitH svPre 1 with
  | some (s, _) => s
  | none => svPre

/-- A participant owning only x, with ops of transaction 1 = [Get x, Set z]:
z is a key it does not own. -/
def sv9 : Server := setH (getH (mkServer ["x"]) 1 "x") 1 "z" (some 7)

/-- Claim C1, the code evaluated at the failing input: at a participant whose
transaction 1 is Committed (reached through Set, Prepare, PreCommit, Commit),
Abort(1) does not refuse: its guard only checks for a missing entry or the
Aborted state, so it re-releases the already-released locks — a fatal
unlock-of-unheld-lock error in Go (modelled by none) — instead of leaving the
Committed state untouched. -/
theorem abort_committed_crash :
    stateOf svC1 1 = .committed ∧ abortH svC1 1 = none := ⟨rfl, rfl⟩

/-- Claim C9, the code evaluated at the failing input: transaction 1 logged
Get x then Set z at a participant owning only x.  Prepare read-locks x, finds
z unowned, and then releases the locks acquired so far with the write-side
Unlock — fatal on the read-held lock of x (modelled by panicked) — instead of
read-releasing it, voting no and returning. -/
theorem prepare_unlock_crash :
    sv9.operations 1 = some [⟨true, "x", none⟩, ⟨false, "z", some 7⟩] ∧
    stateOf sv9 1 = .operations ∧ prepare sv9 1 = .panicked := ⟨rfl, rfl, rfl⟩

/-- Claim C4 counterexample: transaction 1 has a logged Set (state
Operations), yet Query returns no entry for it — Get and Set never create a
states-map entry and Query only reports tids present in the states map. -/
theorem query_omits_operations_cex :
    svA.operations 1 = some [⟨false, "x", some 5⟩] ∧ queryH svA 1 = none := ⟨rfl, rfl⟩

/-- Claim C4 as amended: Query returns an entry for exactly the tids present
in the states map — with that tid's current state and full operation list —
and omits every tid that has logged operations but no states-map entry
(which is every transaction still in state Operations). -/
theorem query_entries (sv : Server) (tid : Int) :
    (∀ st, sv.states tid = some st →
      queryH sv tid = some ⟨st, (sv.operations tid).getD []⟩) ∧
    (sv.states tid = none → queryH sv tid = none) := by
  constructor
  · intro st h; simp [queryH, h]
  · intro h; simp [queryH, h]

/-- Witness for query_entries at a participant whose transaction 1 is
VotedYes. -/
theorem query_entries_w :
    svB.states 1 = some .votedYes ∧
    queryH svB 1 = some ⟨.votedYes, (svB.operations 1).getD []⟩ :=
  ⟨rfl, (query_entries svB 1).1 .votedYes rfl⟩

/-- Claim C7: with a missing or empty operation log for tid, Prepare replies
not-relevant and returns the server completely unchanged. -/
theorem prepare_not_relevant (sv : Server) (tid : Int)
    (h : (sv.operations tid).getD [] = []) :
    prepare sv tid = .done sv ⟨false, false⟩ := by
  cases hops : sv.operations tid with
  | none => unfold prepare; rw [hops]
  | some ops =>
    rw [hops] at h
    simp only [Option.getD_some] at h
    subst h
    unfold prepare
    rw [hops]
    rfl

/-- Witness for prepare_not_relevant: a fresh participant knows no
operations for tid 0. -/
theorem prepare_not_relevant_w :
    ((mkServer ["x"]).operations 0).getD [] = [] ∧
    prepare (mkServer ["x"]) 0 = .done (mkServer ["x"]) ⟨false, false⟩ :=
  ⟨rfl, prepare_not_relevant (mkServer ["x"]) 0 rfl⟩

/-- Claim C8 counterexample: transaction 1 is in state Operations (a logged
Set, no states-map entry).  Abort(1) returns the server unchanged — it does
not transition the transaction to Aborted, because its existence check on the
states map fails and it returns immediately. -/
theorem abort_operations_cex :
    svA.operations 1 = some [⟨false, "x", some 5⟩] ∧ svA.states 1 = none ∧
    abortH svA 1 = some svA := ⟨rfl, rfl, rfl⟩

/-- Claim C8 as amended: for a transaction in state Operations — which in
this implementation never has a states-map entry, since Get and Set do not
create one — Abort is a complete no-op: it releases no locks and acknowledges,
but it also leaves the state Operations instead of transitioning to Aborted. -/
theorem abort_no_entry_noop (sv : Server) (tid : Int) (h : sv.states tid = none) :
    abortH sv tid = some sv := by
  unfold abortH; rw [h]

/-- Witness for abort_no_entry_noop at a participant with a logged Get for
tid 7 and no states-map entry. -/
theorem abort_no_entry_noop_w :
    (getH (mkServer ["y"]) 7 "y").states 7 = none ∧
    abortH (getH (mkServer ["y"]) 7 "y") 7 = some (getH (mkServer ["y"]) 7 "y") :=
  ⟨rfl, abort_no_entry_noop (getH (mkServer ["y"]) 7 "y") 7 rfl⟩

/-- Claim C10: Set appends exactly one {IsGet=false, key, value} operation and
Get exactly one {IsGet=true, key, nil} operation at the end of ops[tid], and
neither call touches any other transaction's log, any stored value or lock,
or any transaction state. -/
theorem set_get_append_only (sv : Server) (tid : Int) (key : String) (v : GoVal) :
    (setH sv tid key v).operations tid
      = some ((sv.operations tid).getD [] ++ [⟨false, key, v⟩]) ∧
    (getH sv tid key).operations tid
      = some ((sv.operations tid).getD [] ++ [⟨true, key, none⟩]) ∧
    (∀ t, t ≠ tid →
      (setH sv tid key v).operations t = sv.operations t ∧
      (getH sv tid key).operations t = sv.operations t) ∧
    (setH sv tid key v).store = sv.store ∧ (setH sv tid key v).states = sv.states ∧
    (getH sv tid key).store = sv.store ∧ (getH sv tid key).states = sv.states := by
  refine ⟨?_, ?_, ?_, rfl, rfl, rfl, rfl⟩
  · simp [setH, upd]
  · simp [getH, upd]
  · intro t ht
    exact ⟨by simp [setH, upd, ht], by simp [getH, upd, ht]⟩

/-- Witness for set_get_append_only: logging for tid 1 leaves tid 2's log
untouched. -/
theorem set_get_append_only_w :
    (setH svA 1 "x" (some 6)).operations 2 = svA.operations 2 :=
  ((set_get_append_only svA 1 "x" (some 6)).2.2.1 2 (by decide)).1

/-- Claim C5: with a non-empty operation log, Prepare on a tid whose state is
VotedYes, PreCommitted or Committed re-votes yes, and on a tid whose state is
VotedNo or Aborted re-votes no, in both cases returning the server itself —
no lock is touched and no state changes. -/
theorem prepare_idempotent_votes (sv : Server) (tid : Int)
    (hops : (sv.operations tid).getD [] ≠ []) :
    ((stateOf sv tid = .votedYes ∨ stateOf sv tid = .preCommitted ∨
        stateOf sv tid = .committed) →
      prepare sv tid = .done sv ⟨true, true⟩) ∧
    ((stateOf sv tid = .votedNo ∨ stateOf sv tid = .aborted) →
      prepare sv tid = .done sv ⟨true, false⟩) := by
  cases hmap : sv.operations tid with
  | none => rw [hmap] at hops; simp at hops
  | some ops =>
    rw [hmap] at hops
    simp only [Option.getD_some] at hops
    constructor
    · intro hst
      unfold prepare
      rw [hmap]
      cases ops with
      | nil => exact absurd rfl hops
      | cons a l => rcases hst with h | h | h <;> rw [h] <;> rfl
    · intro hst
      unfold prepare
      rw [hmap]
      cases ops with
      | nil => exact absurd rfl hops
      | cons a l => rcases hst with h | h <;> rw [h] <;> rfl

/-- Witness for prepare_idempotent_votes: re-delivering Prepare to a
participant already VotedYes for transaction 1. -/
theorem prepare_idempotent_votes_w :
    (svB.operations 1).getD [] ≠ [] ∧ prepare svB 1 = .done svB ⟨true, true⟩ :=
  ⟨by decide, (prepare_idempotent_votes svB 1 (by decide)).1 (Or.inl rfl)⟩

/-- Claim C6: PreCommit moves the state to PreCommitted exactly when the tid
has an operations-map entry and its state is VotedYes, and otherwise returns
the server unchanged; in every case, it never touches the operation logs, the
store, or any other transaction's state, and it always acknowledges. -/
theorem preCommit_transition (sv : Server) (tid : Int) :
    (((sv.operations tid).isSome = true ∧ stateOf sv tid = .votedYes) →
      preCommitH sv tid = { sv with states := upd sv.states tid .preCommitted }) ∧
    (¬((sv.operations tid).isSome = true ∧ stateOf sv tid = .votedYes) →
      preCommitH sv tid = sv) ∧
    (preCommitH sv tid).operations = sv.operations ∧
    (preCommitH sv tid).store = sv.store ∧
    (∀ t, t ≠ tid → (preCommitH sv tid).states t = sv.states t) := by
  refine ⟨fun h => by unfold preCommitH; rw [if_pos h],
          fun h => by unfold preCommitH; rw [if_neg h], ?_, ?_, ?_⟩
  · unfold preCommitH; split <;> rfl
  · unfold preCommitH; split <;> rfl
  · intro t ht; unfold preCommitH; split <;> simp [upd, ht]

/-- Witness for preCommit_transition: PreCommit at a participant VotedYes for
transaction 1 moves it to PreCommitted. -/
theorem preCommit_transition_w :
    ((svB.operations 1).isSome = true ∧ stateOf svB 1 = .votedYes) ∧
    preCommitH svB 1 = { svB with states := upd svB.states 1 .preCommitted } :=
  ⟨⟨rfl, rfl⟩, (preCommit_transition svB 1).1 ⟨rfl, rfl⟩⟩

/-- Helper: when the locks for an operation list are held, the Commit loop
hits no bad unlock and computes exactly the spec-side execution. -/
theorem commitLoop_eq_spec :
    ∀ (ops : List Operation) (st : Store) (rv : ReadValues),
      locksHeld st ops = true →
      commitLoop st rv ops = some (commitSpecExec st rv ops) := by
  intro ops
  induction ops with
  | nil => intro st rv _; rfl
  | cons op rest ih =>
    intro st rv h
    unfold locksHeld at h
    unfold commitLoop commitSpecExec
    cases hk : st op.key with
    | none => simp [hk] at h
    | some item =>
      simp only [hk] at h ⊢
      by_cases hg : op.isGet = true
      · simp only [if_pos hg] at h ⊢
        by_cases hr : item.readers > 0
        · simp only [if_pos hr] at h ⊢
          exact ih _ _ h
        · simp only [if_neg hr] at h
          exact absurd h (by simp)
      · simp only [if_neg hg] at h ⊢
        by_cases hw : item.writer = true
        · simp only [if_pos hw] at h ⊢
          exact ih _ _ h
        · simp only [if_neg hw] at h
          exact absurd h (by simp)

/-- Claim C3: from state PreCommitted (with the locks Prepare took still
held), Commit executes the logged operations in order exactly as the spec
describes — Sets write, Gets read the value current at that point, each
operation's lock is released in its mode — and moves the state to Committed;
from any other state Commit changes nothing and replies with an empty
ReadValues map. -/
theorem commit_exec (sv : Server) (tid : Int) :
    (∀ ops, sv.operations tid = some ops → stateOf sv tid = .preCommitted →
      locksHeld sv.store ops = true →
      commitH sv tid =
        some ({ sv with store := (commitSpecExec sv.store emptyRV ops).1,
                        states := upd sv.states tid .committed },
              (commitSpecExec sv.store emptyRV ops).2)) ∧
    (stateOf sv tid ≠ .preCommitted → commitH sv tid = some (sv, emptyRV)) := by
  constructor
  · intro ops hops hst hlk
    unfold commitH
    simp only [hops]
    rw [if_pos hst, commitLoop_eq_spec ops sv.store emptyRV hlk]
  · intro hst
    unfold commitH
    cases hops : sv.operations tid with
    | none => rfl
    | some ops =>
      simp only [hops]
      rw [if_neg hst]

/-- Witness for commit_exec: committing the prepared-and-precommitted Set of
5 into x. -/
theorem commit_exec_w :
    (stateOf svPre 1 = .preCommitted ∧
      locksHeld svPre.store [⟨false, "x", some 5⟩] = true) ∧
    commitH svPre 1 =
      some ({ svPre with
                store := (commitSpecExec svPre.store emptyRV [⟨false, "x", some 5⟩]).1,
                states := upd svPre.states 1 .committed },
            (commitSpecExec svPre.store emptyRV [⟨false, "x", some 5⟩]).2) :=
  ⟨⟨rfl, by decide⟩, (commit_exec svPre 1).1 [⟨false, "x", some 5⟩] rfl rfl (by decide)⟩

/-- Claim C2 counterexample: transaction 1 holds the write lock on x (it is
VotedYes); Prepare for transaction 2, whose log is the single Set on x, blocks
forever on the held lock — it does not release anything, does not move to
VotedNo and returns no vote at all. -/
theorem prepare_blocks_cex :
    stateOf (setH svB 2 "x" (some 2)) 2 = .operations ∧
    prepare (setH svB 2 "x" (some 2)) 2 = .blocked "x" := ⟨rfl, rfl⟩

/-- Helper: a point update of the store keeps every present key present. -/
theorem upd_keeps_some {st : Store} {k : String} {v : StoreItem}
    (x : String) (hx : (st x).isSome = true) : ((upd st k v) x).isSome = true := by
  unfold upd
  by_cases h : x = k <;> simp [h, hx]

/-- Helper: when every key of the operation list is owned, the Prepare lock
loop can only finish by acquiring every lock: any reply it produces is a yes
vote with the state recorded as VotedYes (contention makes it block, never
vote no). -/
theorem prepLoop_done_yes (tid : Int) (sv : Server) :
    ∀ (ops : List Operation) (st : Store) (acq : List String),
      (∀ op ∈ ops, (st op.key).isSome = true) →
      ∀ sv2 r, prepLoop tid sv st acq ops = .done sv2 r →
        r = ⟨true, true⟩ ∧ sv2.states tid = some .votedYes := by
  intro ops
  induction ops with
  | nil =>
    intro st acq hkeys sv2 r hdone
    unfold prepLoop at hdone
    cases hdone
    exact ⟨rfl, by simp [upd]⟩
  | cons op rest ih =>
    intro st acq hkeys sv2 r hdone
    unfold prepLoop at hdone
    cases hk : st op.key with
    | none =>
      have hsome := hkeys op (by simp)
      rw [hk] at hsome
      simp at hsome
    | some item =>
      simp only [hk] at hdone
      by_cases hg : op.isGet = true
      · simp only [if_pos hg] at hdone
        by_cases hw : item.writer = true
        · simp only [if_pos hw] at hdone
          cases hdone
        · simp only [if_neg hw] at hdone
          refine ih _ _ ?_ sv2 r hdone
          intro op2 hop2
          exact upd_keeps_some _ (hkeys op2 (List.mem_cons_of_mem _ hop2))
      · simp only [if_neg hg] at hdone
        by_cases hc : (item.writer || item.readers > 0) = true
        · simp only [if_pos hc] at hdone
          cases hdone
        · simp only [if_neg hc] at hdone
          refine ih _ _ ?_ sv2 r hdone
          intro op2 hop2
          exact upd_keeps_some _ (hkeys op2 (List.mem_cons_of_mem _ hop2))

/-- Claim C2 as amended: from state Operations with a non-empty log over keys
the participant owns, Prepare acquires each per-key lock with a blocking
acquisition and no conflict-detection timeout — contention blocks the handler
instead of producing a no vote — so whenever Prepare returns at all it has
acquired every lock, votes yes and has recorded VotedYes. -/
theorem prepare_no_timeout_vote (sv : Server) (tid : Int) (ops : List Operation)
    (hst : stateOf sv tid = .operations) (hops : sv.operations tid = some ops)
    (hne : ops ≠ [])
    (hkeys : ∀ op ∈ ops, (sv.store op.key).isSome = true) :
    ∀ sv2 r, prepare sv tid = .done sv2 r →
      r = ⟨true, true⟩ ∧ sv2.states tid = some .votedYes := by
  intro sv2 r hdone
  unfold prepare at hdone
  cases ops with
  | nil => exact absurd rfl hne
  | cons a l =>
    simp only [hops, List.isEmpty_cons, Bool.false_eq_true, if_false] at hdone
    rw [hst] at hdone
    have hno : ¬(TransactionState.operations ≠ TransactionState.operations) := by simp
    rw [if_neg hno] at hdone
    exact prepLoop_done_yes tid sv (a :: l) sv.store [] hkeys sv2 r hdone

/-- Witness for prepare_no_timeout_vote: an uncontended Prepare of the Set of
5 into x acquires the lock and votes yes. -/
theorem prepare_no_timeout_vote_w :
    PrepareReply.mk true true = ⟨true, true⟩ ∧ svB.states 1 = some .votedYes :=
  prepare_no_timeout_vote svA 1 [⟨false, "x", some 5⟩] rfl rfl (by decide) (by decide)
    svB ⟨true, true⟩ rfl

end ThreePC
